import Mathlib

/-!
A verification development for the snarkVM operation layer, program data
model, and stack evaluator.

The literal kinds, the opcode signature tables, and the program-construction
rules are translated from the repository sources
(`src/.experimental/src/vm/program/instruction/operation/mod.rs`,
`src/vm/compiler/src/program/mod.rs`, `src/vm/file/avm.rs`,
`src/console/program/src/id/bytes.rs`).  Components whose source is not in
the repository snapshot (the console/circuit evaluator bodies, the stack
execution engine, the byte encodings of identifiers) are modelled from the
specification and are marked as such in their doc comments.
-/

namespace Snark

/-- The ten fixed-width integer kinds (I8..I128, U8..U128) of the literal
model. -/
inductive IntKind
  | i8 | i16 | i32 | i64 | i128
  | u8 | u16 | u32 | u64 | u128
deriving DecidableEq, Repr

/-- Bit width of an integer kind. -/
def IntKind.width : IntKind → Nat
  | .i8 => 8 | .i16 => 16 | .i32 => 32 | .i64 => 64 | .i128 => 128
  | .u8 => 8 | .u16 => 16 | .u32 => 32 | .u64 => 64 | .u128 => 128

/-- Whether the integer kind is signed. -/
def IntKind.signed : IntKind → Bool
  | .i8 | .i16 | .i32 | .i64 | .i128 => true
  | _ => false

/-- Smallest representable value of the kind. -/
def IntKind.lo (t : IntKind) : Int :=
  if t.signed then -(2 ^ (t.width - 1)) else 0

/-- Largest representable value of the kind. -/
def IntKind.hi (t : IntKind) : Int :=
  if t.signed then 2 ^ (t.width - 1) - 1 else 2 ^ t.width - 1

/-- Whether `v` is representable in kind `t`. -/
def IntKind.inRange (t : IntKind) (v : Int) : Bool :=
  decide (t.lo ≤ v) && decide (v ≤ t.hi)

/-- Reduction of `v` modulo `2 ^ t.width`, into the representable range of
`t` (two's-complement wrap for the signed kinds). -/
def IntKind.wrap (t : IntKind) (v : Int) : Int :=
  if t.signed then (v + 2 ^ (t.width - 1)) % 2 ^ t.width - 2 ^ (t.width - 1)
  else v % 2 ^ t.width

/-- Order of the scalar field of BLS12-377 (the console `Field` type). -/
def fieldSize : Nat := 8444461749428370424248824938781546531375899335154063827935233455917409239041

/-- Order of the prime-order subgroup of the Edwards-BLS12 curve (the size of
the console `Scalar` field, and the order of the console `Group`). -/
def groupOrder : Nat := 2111115437357092606062206234695386632838870926408408195193685246394721360383

/-- Native field elements. -/
abbrev FieldEl := ZMod fieldSize

/-- Modelled from the spec: the console `Group` source is not in the snapshot;
the group of program literals is the prime-order Edwards subgroup, modelled as
the additive cyclic group of that order. -/
abbrev GroupEl := ZMod groupOrder

/-- Native scalar elements (the scalar field has the order of the group). -/
abbrev ScalarEl := ZMod groupOrder

/-- The native literal kinds of the program data model. -/
inductive Lit
  | boolean (b : Bool)
  | address (a : Nat)
  | field (x : FieldEl)
  | group (g : GroupEl)
  | scalar (s : ScalarEl)
  | integer (t : IntKind) (v : Int)
  | str (s : String)
deriving DecidableEq

/-- The opcodes of the operation registry
(`src/.experimental/src/vm/program/instruction/operation/mod.rs`); the `W`
suffix stands for the `.w` (wrapped) variant. -/
inductive Op
  | abs | absW | add | addW | and | double
  | gt | gte | isEq | isNeq | inv | lt | lte
  | mul | mulW | nand | neg | nor | not | or
  | pow | powW | shl | shlW | shr | shrW
  | square | sqrt | sub | subW | xor
deriving DecidableEq, Repr

/-- Unsigned representative of `v` modulo `2 ^ t.width`. -/
def IntKind.toU (t : IntKind) (v : Int) : Nat := (v % (2 ^ t.width : Int)).toNat

/-- Bitwise and, on the two's-complement representations. -/
def IntKind.bitand (t : IntKind) (a b : Int) : Int :=
  t.wrap (Int.ofNat (Nat.land (t.toU a) (t.toU b)))

/-- Bitwise or, on the two's-complement representations. -/
def IntKind.bitor (t : IntKind) (a b : Int) : Int :=
  t.wrap (Int.ofNat (Nat.lor (t.toU a) (t.toU b)))

/-- Bitwise xor, on the two's-complement representations. -/
def IntKind.bitxor (t : IntKind) (a b : Int) : Int :=
  t.wrap (Int.ofNat (Nat.xor (t.toU a) (t.toU b)))

/-- Bitwise complement, on the two's-complement representation. -/
def IntKind.bitnot (t : IntKind) (v : Int) : Int :=
  t.wrap ((2 ^ t.width - 1 : Int) - Int.ofNat (t.toU v))

/-- The integer kinds admissible as a shift amount or exponent
(U8, U16, U32 per the `shl`/`shr`/`pow` signature tables). -/
def IntKind.isShiftKind : IntKind → Bool
  | .u8 | .u16 | .u32 => true
  | _ => false

/-- Modelled from the spec: a square root in the field, when one exists
(the console square-root source is not in the snapshot).  Returns the root
with the least representative. -/
def fieldSqrt (x : FieldEl) : Option FieldEl :=
  ((List.range fieldSize).find? (fun n => decide ((n : FieldEl) * (n : FieldEl) = x))).map
    (fun n => (n : FieldEl))

/-- Modelled from the spec: the one structural difference between the native
and the circuit evaluator is how a checked fixed-width integer operation
treats an exact result: the native evaluator halts when the result is out of
range, while the circuit evaluator witnesses the wrapped result and enforces
an (otherwise unsatisfiable) constraint that it equals the exact result. -/
structure HaltDiscipline where
  intResult : IntKind → Int → Option Int

/-- The native discipline: halt (return `none`) when the exact result is not
representable. -/
def nativeDiscipline : HaltDiscipline :=
  { intResult := fun t r => if t.inRange r then some r else none }

/-- The circuit discipline: witness the wrapped result and constrain it to
equal the exact result; an overflow makes the constraint unsatisfiable. -/
def circuitDiscipline : HaltDiscipline :=
  { intResult := fun t r => if t.wrap r = r then some (t.wrap r) else none }

/-- Modelled from the spec: one evaluation pass over the operation registry
of `src/.experimental/src/vm/program/instruction/operation/mod.rs`.  The
signature tables (which input-kind tuples are legal for each opcode) are
translated from that file; the arithmetic bodies follow the spec since the
console/circuit operation sources are not in the snapshot.  Inputs outside
an opcode's signature table evaluate to `none`. -/
def evalCore (d : HaltDiscipline) : Op → List Lit → Option Lit
  | .abs, [.integer t a] =>
      if t.signed then (d.intResult t |a|).map (Lit.integer t) else none
  | .absW, [.integer t a] =>
      if t.signed then some (.integer t (t.wrap |a|)) else none
  | .add, [.field x, .field y] => some (.field (x + y))
  | .add, [.group x, .group y] => some (.group (x + y))
  | .add, [.scalar x, .scalar y] => some (.scalar (x + y))
  | .add, [.integer t a, .integer u b] =>
      if t = u then (d.intResult t (a + b)).map (Lit.integer t) else none
  | .addW, [.integer t a, .integer u b] =>
      if t = u then some (.integer t (t.wrap (a + b))) else none
  | .and, [.boolean a, .boolean b] => some (.boolean (a && b))
  | .and, [.integer t a, .integer u b] =>
      if t = u then some (.integer t (t.bitand a b)) else none
  | .double, [.field x] => some (.field (x + x))
  | .double, [.group g] => some (.group (g + g))
  | .gt, [.address a, .address b] => some (.boolean (decide (b < a)))
  | .gt, [.field x, .field y] => some (.boolean (decide (y.val < x.val)))
  | .gt, [.scalar x, .scalar y] => some (.boolean (decide (y.val < x.val)))
  | .gt, [.integer t a, .integer u b] =>
      if t = u then some (.boolean (decide (b < a))) else none
  | .gte, [.address a, .address b] => some (.boolean (decide (b ≤ a)))
  | .gte, [.field x, .field y] => some (.boolean (decide (y.val ≤ x.val)))
  | .gte, [.scalar x, .scalar y] => some (.boolean (decide (y.val ≤ x.val)))
  | .gte, [.integer t a, .integer u b] =>
      if t = u then some (.boolean (decide (b ≤ a))) else none
  | .isEq, [.address a, .address b] => some (.boolean (decide (a = b)))
  | .isEq, [.boolean a, .boolean b] => some (.boolean (a == b))
  | .isEq, [.field x, .field y] => some (.boolean (decide (x = y)))
  | .isEq, [.group x, .group y] => some (.boolean (decide (x = y)))
  | .isEq, [.scalar x, .scalar y] => some (.boolean (decide (x = y)))
  | .isEq, [.integer t a, .integer u b] =>
      if t = u then some (.boolean (decide (a = b))) else none
  | .isNeq, [.address a, .address b] => some (.boolean (decide (a ≠ b)))
  | .isNeq, [.boolean a, .boolean b] => some (.boolean (a != b))
  | .isNeq, [.field x, .field y] => some (.boolean (decide (x ≠ y)))
  | .isNeq, [.group x, .group y] => some (.boolean (decide (x ≠ y)))
  | .isNeq, [.scalar x, .scalar y] => some (.boolean (decide (x ≠ y)))
  | .isNeq, [.integer t a, .integer u b] =>
      if t = u then some (.boolean (decide (a ≠ b))) else none
  | .inv, [.field x] => if x = 0 then none else some (.field x⁻¹)
  | .lt, [.address a, .address b] => some (.boolean (decide (a < b)))
  | .lt, [.field x, .field y] => some (.boolean (decide (x.val < y.val)))
  | .lt, [.scalar x, .scalar y] => some (.boolean (decide (x.val < y.val)))
  | .lt, [.integer t a, .integer u b] =>
      if t = u then some (.boolean (decide (a < b))) else none
  | .lte, [.address a, .address b] => some (.boolean (decide (a ≤ b)))
  | .lte, [.field x, .field y] => some (.boolean (decide (x.val ≤ y.val)))
  | .lte, [.scalar x, .scalar y] => some (.boolean (decide (x.val ≤ y.val)))
  | .lte, [.integer t a, .integer u b] =>
      if t = u then some (.boolean (decide (a ≤ b))) else none
  | .mul, [.field x, .field y] => some (.field (x * y))
  | .mul, [.group g, .scalar s] => some (.group (g * s))
  | .mul, [.scalar s, .group g] => some (.group (s * g))
  | .mul, [.integer t a, .integer u b] =>
      if t = u then (d.intResult t (a * b)).map (Lit.integer t) else none
  | .mulW, [.integer t a, .integer u b] =>
      if t = u then some (.integer t (t.wrap (a * b))) else none
  | .nand, [.boolean a, .boolean b] => some (.boolean (!(a && b)))
  | .neg, [.field x] => some (.field (-x))
  | .neg, [.group g] => some (.group (-g))
  | .neg, [.integer t a] =>
      if t.signed then (d.intResult t (-a)).map (Lit.integer t) else none
  | .nor, [.boolean a, .boolean b] => some (.boolean (!(a || b)))
  | .not, [.boolean b] => some (.boolean (!b))
  | .not, [.integer t a] => some (.integer t (t.bitnot a))
  | .or, [.boolean a, .boolean b] => some (.boolean (a || b))
  | .or, [.integer t a, .integer u b] =>
      if t = u then some (.integer t (t.bitor a b)) else none
  | .pow, [.field x, .field y] => some (.field (x ^ y.val))
  | .pow, [.integer t a, .integer s b] =>
      if s.isShiftKind then (d.intResult t (a ^ b.toNat)).map (Lit.integer t) else none
  | .powW, [.integer t a, .integer s b] =>
      if s.isShiftKind then some (.integer t (t.wrap (a ^ b.toNat))) else none
  | .shl, [.integer t a, .integer s b] =>
      if s.isShiftKind then
        if b.toNat < t.width then (d.intResult t (a * 2 ^ b.toNat)).map (Lit.integer t)
        else none
      else none
  | .shlW, [.integer t a, .integer s b] =>
      if s.isShiftKind then some (.integer t (t.wrap (a * 2 ^ b.toNat))) else none
  | .shr, [.integer t a, .integer s b] =>
      if s.isShiftKind then
        if b.toNat < t.width then (d.intResult t (Int.fdiv a (2 ^ b.toNat))).map (Lit.integer t)
        else none
      else none
  | .shrW, [.integer t a, .integer s b] =>
      if s.isShiftKind then some (.integer t (t.wrap (Int.fdiv a (2 ^ b.toNat)))) else none
  | .square, [.field x] => some (.field (x * x))
  | .sqrt, [.field x] => (fieldSqrt x).map Lit.field
  | .sub, [.field x, .field y] => some (.field (x - y))
  | .sub, [.group x, .group y] => some (.group (x - y))
  | .sub, [.integer t a, .integer u b] =>
      if t = u then (d.intResult t (a - b)).map (Lit.integer t) else none
  | .subW, [.integer t a, .integer u b] =>
      if t = u then some (.integer t (t.wrap (a - b))) else none
  | .xor, [.boolean a, .boolean b] => some (.boolean (a != b))
  | .xor, [.integer t a, .integer u b] =>
      if t = u then some (.integer t (t.bitxor a b)) else none
  | _, _ => none

/-- The native evaluator `evaluate` of the operation registry. -/
def evalOp : Op → List Lit → Option Lit := evalCore nativeDiscipline

/-- A circuit literal: the constraint-system encoding of a literal.  In the
shallow model it carries the value its wires witness. -/
structure CLit where
  val : Lit
deriving DecidableEq

/-- Eject a circuit literal to its native value. -/
def CLit.eject (c : CLit) : Lit := c.val

/-- Inject a native literal into the circuit representation. -/
def Lit.inject (v : Lit) : CLit := { val := v }

/-- The circuit evaluator `execute` of the operation registry: the same
computation as `evalOp`, under the circuit halt discipline. -/
def execOp (op : Op) (ins : List CLit) : Option CLit :=
  (evalCore circuitDiscipline op (ins.map CLit.eject)).map Lit.inject

/-- The literal (plaintext) types of the operation signature tables. -/
inductive LitType
  | address | boolean | field | group
  | i8 | i16 | i32 | i64 | i128
  | u8 | u16 | u32 | u64 | u128
  | scalar | string
deriving DecidableEq, Repr, Fintype

/-- The `output_type` table of the `add` opcode
(`AddOperation`, `src/.experimental/src/vm/program/instruction/operation/mod.rs`
lines 74-90). -/
def addOutputType : LitType → LitType → Option LitType
  | .field, .field => some .field
  | .group, .group => some .group
  | .i8, .i8 => some .i8
  | .i16, .i16 => some .i16
  | .i32, .i32 => some .i32
  | .i64, .i64 => some .i64
  | .i128, .i128 => some .i128
  | .u8, .u8 => some .u8
  | .u16, .u16 => some .u16
  | .u32, .u32 => some .u32
  | .u64, .u64 => some .u64
  | .u128, .u128 => some .u128
  | .scalar, .scalar => some .scalar
  | _, _ => none

/-- The input-type pairs listed in the `add` signature table. -/
def addSignatures : List (LitType × LitType) :=
  [(.field, .field), (.group, .group), (.scalar, .scalar),
   (.i8, .i8), (.i16, .i16), (.i32, .i32), (.i64, .i64), (.i128, .i128),
   (.u8, .u8), (.u16, .u16), (.u32, .u32), (.u64, .u64), (.u128, .u128)]

/-- A program ID: a name and an optional network suffix
(`src/console/program/src/id/bytes.rs`).  The name is kept as its byte
sequence; the network id is a u16. -/
structure ProgramIDM where
  name : List Nat
  network : Option Nat
deriving DecidableEq, Repr

/-- Modelled from the spec: the length-prefixed binary form of an identifier
(the identifier byte encoding is not in the snapshot; the spec prescribes a
length-prefixed little-endian form). -/
def writeIdent (name : List Nat) : List Nat := name.length :: name

/-- Modelled from the spec: read a length-prefixed identifier. -/
def readIdent (bs : List Nat) : Option (List Nat × List Nat) :=
  match bs with
  | [] => none
  | l :: rest => if l ≤ rest.length then some (rest.take l, rest.drop l) else none

/-- Little-endian two-byte encoding of a u16. -/
def writeU16 (n : Nat) : List Nat := [n % 256, n / 256 % 256]

/-- Read a little-endian u16. -/
def readU16 (bs : List Nat) : Option (Nat × List Nat) :=
  match bs with
  | b0 :: b1 :: rest => some (b0 + 256 * b1, rest)
  | _ => none

/-- `ToBytes for ProgramID`: the name, then variant byte 0 (no network
suffix) or variant byte 1 followed by the network id. -/
def ProgramIDM.write_le (x : ProgramIDM) : List Nat :=
  writeIdent x.name ++
    (match x.network with
     | none => [0]
     | some n => 1 :: writeU16 n)

/-- `FromBytes for ProgramID`: read the name, then dispatch on the variant
byte; any variant other than 0 or 1 is an error. -/
def ProgramIDM.read_le (bs : List Nat) : Option (ProgramIDM × List Nat) :=
  match readIdent bs with
  | none => none
  | some (name, bs) =>
    match bs with
    | [] => none
    | 0 :: bs => some ({ name := name, network := none }, bs)
    | 1 :: bs =>
      match readU16 bs with
      | none => none
      | some (n, bs) => some ({ name := name, network := some n }, bs)
    | _ :: _ => none

/-- Replace-or-append insertion of an `IndexMap`: an existing key keeps its
position and the old value is returned; a new key is appended. -/
def alistInsert {α β : Type} [DecidableEq α] :
    List (α × β) → α → β → List (α × β) × Option β
  | [], k, v => ([(k, v)], none)
  | (k', v') :: rest, k, v =>
    if k = k' then ((k, v) :: rest, some v')
    else
      let r := alistInsert rest k v
      ((k', v') :: r.1, r.2)

/-- Whether the association list holds the key. -/
def alistContains {α β : Type} [DecidableEq α] (m : List (α × β)) (k : α) : Bool :=
  (m.lookup k).isSome

/-- The kind of a named program declaration (`ProgramDefinition`). -/
inductive ProgramDefinition
  | interface | record | closure | function
deriving DecidableEq, Repr

/-- A plaintext type: a literal type or a reference to a named interface. -/
inductive PlaintextTypeM
  | literal (t : LitType)
  | interface (id : String)
deriving DecidableEq, Repr

/-- A record entry type: a plaintext type under a visibility mode. -/
inductive EntryTypeM
  | constant (t : PlaintextTypeM)
  | publicE (t : PlaintextTypeM)
  | privateE (t : PlaintextTypeM)
deriving DecidableEq, Repr

/-- The plaintext type under an entry type. -/
def EntryTypeM.plaintext : EntryTypeM → PlaintextTypeM
  | .constant t | .publicE t | .privateE t => t

/-- An interface (struct) declaration: named, ordered members. -/
structure InterfaceDecl where
  name : String
  members : List (String × PlaintextTypeM)
deriving DecidableEq, Repr

/-- A record type declaration: named, ordered entries. -/
structure RecordDecl where
  name : String
  entries : List (String × EntryTypeM)
deriving DecidableEq, Repr

/-- An instruction of the execution model: a literal operation on two source
registers into a destination register, or a call binding a closure's outputs
to destination registers.  (Operands are restricted to registers, which
covers the programs of the repository tests.) -/
inductive InstrM
  | binary (op : Op) (first second destination : Nat)
  | call (callee : String) (args : List Nat) (destinations : List Nat)
deriving DecidableEq

/-- A closure: named inputs (registers), instructions, output registers. -/
structure ClosureDecl where
  name : String
  inputs : List Nat
  instructions : List InstrM
  outputs : List Nat
deriving DecidableEq

/-- A function: a closure with visibility-tagged inputs and outputs; the
visibility tags play no role in evaluation and are not modelled. -/
structure FunctionDecl where
  name : String
  inputs : List Nat
  instructions : List InstrM
  outputs : List Nat
deriving DecidableEq

/-- An import declaration: the imported program id and its name part. -/
structure ImportDecl where
  id : String
  name : String
deriving DecidableEq, Repr

/-- The program: an id, imports, the shared identifier namespace, and the
four typed declaration maps (`Program`, `src/vm/compiler/src/program/mod.rs`
lines 72-88). -/
structure ProgramM where
  id : String
  imports : List (String × ImportDecl)
  identifiers : List (String × ProgramDefinition)
  interfaces : List (String × InterfaceDecl)
  records : List (String × RecordDecl)
  closures : List (String × ClosureDecl)
  functions : List (String × FunctionDecl)
deriving DecidableEq

/-- `Program::new`: an empty program with the given id. -/
def ProgramM.new (id : String) : ProgramM :=
  { id := id, imports := [], identifiers := [], interfaces := [],
    records := [], closures := [], functions := [] }

/-- The reserved keywords (`Program::KEYWORDS`). -/
def KEYWORDS : List String :=
  ["const", "constant", "public", "private",
   "address", "boolean", "field", "group",
   "i8", "i16", "i32", "i64", "i128",
   "u8", "u16", "u32", "u64", "u128",
   "scalar", "string",
   "true", "false",
   "input", "output", "as", "into",
   "function", "interface", "record", "closure", "program", "global",
   "return", "break", "assert", "continue", "let", "if", "else", "while",
   "for", "switch", "case", "default", "match", "enum", "struct", "union",
   "trait", "impl", "type"]

/-- The opcode strings of `Instruction::OPCODES`: the operation table of
`src/.experimental/src/vm/program/instruction/operation/mod.rs` together
with `call` and `cast`. -/
def OPCODES : List String :=
  ["abs", "abs.w", "add", "add.w", "and", "call", "cast", "double",
   "gt", "gte", "inv", "is.eq", "is.neq", "lt", "lte",
   "mul", "mul.w", "nand", "neg", "nor", "not", "or",
   "pow", "pow.w", "shl", "shl.w", "shr", "shr.w",
   "square", "sqrt", "sub", "sub.w", "xor"]

/-- The root of an opcode string: the part before the first dot
(`opcode.split('.').next()`). -/
def opcodeRoot (oc : String) : String := ⟨oc.data.takeWhile (fun c => c ≠ '.')⟩

/-- `Program::is_unique_name`: the name is not yet in the identifier map. -/
def ProgramM.is_unique_name (p : ProgramM) (name : String) : Bool :=
  !(alistContains p.identifiers name)

/-- `Program::is_reserved_opcode`: the name equals the root of an opcode. -/
def is_reserved_opcode (name : String) : Bool :=
  OPCODES.any (fun oc => opcodeRoot oc == name)

/-- `Program::is_reserved_keyword`: the name is a keyword. -/
def is_reserved_keyword (name : String) : Bool :=
  KEYWORDS.any (fun k => k == name)

/-- `Program::add_import`.  The first component reports the error, if any;
the second is the program state after the call (the source method takes
`&mut self`, so a late failure would leave a mutated program). -/
def ProgramM.add_import (p : ProgramM) (imp : ImportDecl) : Option String × ProgramM :=
  if !(p.is_unique_name imp.name) then (some ("name is already in use"), p)
  else if is_reserved_opcode imp.name then (some ("name is a reserved opcode"), p)
  else if is_reserved_keyword imp.name then (some ("name is a reserved keyword"), p)
  else if alistContains p.imports imp.id then (some ("import is already defined"), p)
  else
    let r := alistInsert p.imports imp.id imp
    let p' := { p with imports := r.1 }
    if r.2.isSome then (some ("import already exists in the program"), p') else (none, p')

/-- Whether every member of the interface is well-formed in `p`: the member
name is not a keyword, and a member interface type is already defined. -/
def ProgramM.memberOk (p : ProgramM) (m : String × PlaintextTypeM) : Bool :=
  !(is_reserved_keyword m.1) &&
    (match m.2 with
     | .literal _ => true
     | .interface id => alistContains p.interfaces id)

/-- `Program::add_interface`. -/
def ProgramM.add_interface (p : ProgramM) (i : InterfaceDecl) : Option String × ProgramM :=
  if !(p.is_unique_name i.name) then (some ("name is already in use"), p)
  else if is_reserved_opcode i.name then (some ("name is a reserved opcode"), p)
  else if is_reserved_keyword i.name then (some ("name is a reserved keyword"), p)
  else if i.members.isEmpty then (some ("interface is missing members"), p)
  else if !(i.members.all p.memberOk) then (some ("member is not well-formed"), p)
  else
    let r := alistInsert p.identifiers i.name .interface
    let p1 := { p with identifiers := r.1 }
    if r.2.isSome then (some ("name already exists in the program"), p1)
    else
      let r2 := alistInsert p1.interfaces i.name i
      let p2 := { p1 with interfaces := r2.1 }
      if r2.2.isSome then (some ("name already exists in the program"), p2)
      else (none, p2)

/-- Whether a record entry is well-formed in `p`. -/
def ProgramM.entryOk (p : ProgramM) (e : String × EntryTypeM) : Bool :=
  !(is_reserved_keyword e.1) &&
    (match e.2.plaintext with
     | .literal _ => true
     | .interface id => alistContains p.interfaces id)

/-- `Program::add_record`, including its leading record-count guard
`records.len() <= 1` (lines 289-333). -/
def ProgramM.add_record (p : ProgramM) (rec : RecordDecl) : Option String × ProgramM :=
  if !(p.records.length ≤ 1) then (some ("only one record type is allowed"), p)
  else if !(p.is_unique_name rec.name) then (some ("name is already in use"), p)
  else if is_reserved_opcode rec.name then (some ("name is a reserved opcode"), p)
  else if is_reserved_keyword rec.name then (some ("name is a reserved keyword"), p)
  else if !(rec.entries.all p.entryOk) then (some ("entry is not well-formed"), p)
  else
    let r := alistInsert p.identifiers rec.name .record
    let p1 := { p with identifiers := r.1 }
    if r.2.isSome then (some ("name already exists in the program"), p1)
    else
      let r2 := alistInsert p1.records rec.name rec
      let p2 := { p1 with records := r2.1 }
      if r2.2.isSome then (some ("name already exists in the program"), p2)
      else (none, p2)

/-- Modelled from the spec: the network-wide bounds `N::MAX_INPUTS` and
`N::MAX_OUTPUTS` (the network configuration is not in the snapshot; no claim
depends on the particular value). -/
def MAX_INPUTS : Nat := 8

/-- Modelled from the spec: see `MAX_INPUTS`. -/
def MAX_OUTPUTS : Nat := 8

/-- `Program::add_closure`. -/
def ProgramM.add_closure (p : ProgramM) (c : ClosureDecl) : Option String × ProgramM :=
  if !(p.is_unique_name c.name) then (some ("name is already in use"), p)
  else if is_reserved_opcode c.name then (some ("name is a reserved opcode"), p)
  else if is_reserved_keyword c.name then (some ("name is a reserved keyword"), p)
  else if c.inputs.isEmpty then (some ("closure has no input statements"), p)
  else if !(c.inputs.length ≤ MAX_INPUTS) then (some ("closure exceeds maximum inputs"), p)
  else if c.instructions.isEmpty then (some ("closure has no instructions"), p)
  else if !(c.outputs.length ≤ MAX_OUTPUTS) then (some ("closure exceeds maximum outputs"), p)
  else
    let r := alistInsert p.identifiers c.name .closure
    let p1 := { p with identifiers := r.1 }
    if r.2.isSome then (some ("name already exists in the program"), p1)
    else
      let r2 := alistInsert p1.closures c.name c
      let p2 := { p1 with closures := r2.1 }
      if r2.2.isSome then (some ("name already exists in the program"), p2)
      else (none, p2)

/-- `Program::add_function` (lines 394-423). -/
def ProgramM.add_function (p : ProgramM) (f : FunctionDecl) : Option String × ProgramM :=
  if !(p.is_unique_name f.name) then (some ("name is already in use"), p)
  else if is_reserved_opcode f.name then (some ("name is a reserved opcode"), p)
  else if is_reserved_keyword f.name then (some ("name is a reserved keyword"), p)
  else if f.inputs.isEmpty then (some ("function has no input statements"), p)
  else if !(f.inputs.length ≤ MAX_INPUTS) then (some ("function exceeds maximum inputs"), p)
  else if f.instructions.isEmpty then (some ("function has no instructions"), p)
  else if !(f.outputs.length ≤ MAX_OUTPUTS) then (some ("function exceeds maximum outputs"), p)
  else
    let r := alistInsert p.identifiers f.name .function
    let p1 := { p with identifiers := r.1 }
    if r.2.isSome then (some ("name already exists in the program"), p1)
    else
      let r2 := alistInsert p1.functions f.name f
      let p2 := { p1 with functions := r2.1 }
      if r2.2.isSome then (some ("name already exists in the program"), p2)
      else (none, p2)

/-- Consistency of an identifier map with the four declaration maps: a name
is registered under a kind exactly when it names a declaration in the map of
that kind.  It follows that a registered name lives in exactly one of the
four maps (the kinds are mutually exclusive) and that an unregistered name
lives in none of them. -/
def mapsConsistent (ids : List (String × ProgramDefinition))
    (ints : List (String × InterfaceDecl)) (recs : List (String × RecordDecl))
    (clos : List (String × ClosureDecl)) (funs : List (String × FunctionDecl)) : Prop :=
  ∀ k : String,
    (ids.lookup k = some .interface ↔ (ints.lookup k).isSome = true) ∧
    (ids.lookup k = some .record ↔ (recs.lookup k).isSome = true) ∧
    (ids.lookup k = some .closure ↔ (clos.lookup k).isSome = true) ∧
    (ids.lookup k = some .function ↔ (funs.lookup k).isSome = true)

/-- The namespace-consistency invariant of a program. -/
def ProgramM.namespaceConsistent (p : ProgramM) : Prop :=
  mapsConsistent p.identifiers p.interfaces p.records p.closures p.functions

/-- The programs reachable from `Program::new` by successful add-operations. -/
inductive ProgramM.Reachable : ProgramM → Prop
  | new (id : String) : ProgramM.Reachable (ProgramM.new id)
  | addImport {p : ProgramM} {imp : ImportDecl} {p' : ProgramM} :
      ProgramM.Reachable p → p.add_import imp = (none, p') → ProgramM.Reachable p'
  | addInterface {p : ProgramM} {i : InterfaceDecl} {p' : ProgramM} :
      ProgramM.Reachable p → p.add_interface i = (none, p') → ProgramM.Reachable p'
  | addRecord {p : ProgramM} {rec : RecordDecl} {p' : ProgramM} :
      ProgramM.Reachable p → p.add_record rec = (none, p') → ProgramM.Reachable p'
  | addClosure {p : ProgramM} {c : ClosureDecl} {p' : ProgramM} :
      ProgramM.Reachable p → p.add_closure c = (none, p') → ProgramM.Reachable p'
  | addFunction {p : ProgramM} {f : FunctionDecl} {p' : ProgramM} :
      ProgramM.Reachable p → p.add_function f = (none, p') → ProgramM.Reachable p'

/-- A register file: single-assignment map from register indices to values. -/
abbrev RegFile := List (Nat × Lit)

/-- Load the value of a register; a register read before initialization
yields `none` (a halt). -/
def loadReg (f : RegFile) (r : Nat) : Option Lit := f.lookup r

/-- Store a value at a destination register; an already-occupied destination
yields `none` (a halt). -/
def storeReg (f : RegFile) (r : Nat) (v : Lit) : Option RegFile :=
  if (f.lookup r).isSome then none else some (f ++ [(r, v)])

/-- Store a list of values at a list of destination registers, in order. -/
def storeMany : RegFile → List Nat → List Lit → Option RegFile
  | f, [], [] => some f
  | f, r :: rs, v :: vs =>
    match storeReg f r v with
    | none => none
    | some f' => storeMany f' rs vs
  | _, _, _ => none

/-- Allocate a fresh register file binding the declared input registers to
the supplied input values (`AllocateInputs`). -/
def allocInputs (rs : List Nat) (vs : List Lit) : Option RegFile := storeMany [] rs vs

/-- Modelled from the spec: the sequential instruction pass of the stack
execution engine, section 4.4 (the `Stack` source is not in the snapshot).
A `call` looks up the callee closure, re-checks the closure shape as
`Program::get_closure` does, evaluates the callee on the loaded argument
values, and binds its outputs to the caller's destination registers.  Call
depth is bounded by the fuel, which the acyclicity of the call graph makes
sufficient for any program-supplied bound. -/
def runBody (p : ProgramM) : Nat → List InstrM → RegFile → Option RegFile
  | _, [], f => some f
  | 0, _ :: _, _ => none
  | fuel + 1, ins :: rest, f =>
    match ins with
    | .binary op a b dst =>
      match loadReg f a, loadReg f b with
      | some x, some y =>
        match evalOp op [x, y] with
        | none => none
        | some v =>
          match storeReg f dst v with
          | none => none
          | some f' => runBody p fuel rest f'
      | _, _ => none
    | .call cname args dsts =>
      match p.closures.lookup cname with
      | none => none
      | some c =>
        if c.inputs.isEmpty then none
        else if !(c.inputs.length ≤ MAX_INPUTS) then none
        else if c.instructions.isEmpty then none
        else if !(c.outputs.length ≤ MAX_OUTPUTS) then none
        else
          match args.mapM (loadReg f) with
          | none => none
          | some vals =>
            match allocInputs c.inputs vals with
            | none => none
            | some cf =>
              match runBody p fuel c.instructions cf with
              | none => none
              | some cf' =>
                match c.outputs.mapM (loadReg cf') with
                | none => none
                | some outs =>
                  match storeMany f dsts outs with
                  | none => none
                  | some f' => runBody p fuel rest f'

/-- Total instruction count over all closures and functions of the program. -/
def ProgramM.totalInstrs (p : ProgramM) : Nat :=
  List.foldl (fun n e => n + e.2.instructions.length) 0 p.closures +
    List.foldl (fun n e => n + e.2.instructions.length) 0 p.functions

/-- A fuel bound sufficient for the statically-bounded call depth. -/
def ProgramM.evalFuel (p : ProgramM) : Nat :=
  (p.closures.length + 1) * (p.totalInstrs + 1) + 1

/-- Modelled from the spec: `Stack::evaluate` on a named function — look the
function up (with the shape checks of `Program::get_function`), allocate the
inputs, run the instructions, and collect the outputs in declaration order
(section 4.4; the `Stack` source is not in the snapshot). -/
def ProgramM.evaluate (p : ProgramM) (fname : String) (ins : List Lit) : Option (List Lit) :=
  match p.functions.lookup fname with
  | none => none
  | some fn =>
    if fn.inputs.isEmpty then none
    else if !(fn.inputs.length ≤ MAX_INPUTS) then none
    else if fn.instructions.isEmpty then none
    else if !(fn.outputs.length ≤ MAX_OUTPUTS) then none
    else
      match allocInputs fn.inputs ins with
      | none => none
      | some f0 =>
        match runBody p p.evalFuel fn.instructions f0 with
        | none => none
        | some f1 => fn.outputs.mapM (loadReg f1)

/-- A stack bound to a program.  The register file is per-call and transient,
so the stack state is the program it borrows. -/
structure StackM where
  program : ProgramM

/-- `Stack::test_evaluate`: evaluate a function and return the outputs along
with the stack as left behind by the call. -/
def StackM.test_evaluate (s : StackM) (fname : String) (ins : List Lit) :
    Option (List Lit) × StackM :=
  (s.program.evaluate fname ins, s)

/-- The program of the tests `test_program_function` and
`test_program_evaluate_function` (`src/vm/compiler/src/program/mod.rs`
lines 577-637): a function with two field inputs, one `add`, one output
(`input r0 as field.public; input r1 as field.private; add r0 r1 into r2;
output r2 as field.private;`). -/
def exampleProgram : ProgramM :=
  ((ProgramM.new "example").add_function
    { name := "compute", inputs := [0, 1],
      instructions := [.binary .add 0 1 2], outputs := [2] }).2

/-- The program of the test `test_program_evaluate_call` (lines 723-788):
`closure execute` computes `r2 = r0 + r1; r3 = r0 + r2; r4 = r2 + r3` and
declares its outputs in the order `r4, r3, r2`; `function compute` calls it
via `call execute r0 r1 into r2 r3 r4` and outputs `r2, r3, r4`. -/
def exampleCallProgram : ProgramM :=
  (((ProgramM.new "example_call").add_closure
      { name := "execute", inputs := [0, 1],
        instructions := [.binary .add 0 1 2, .binary .add 0 2 3, .binary .add 2 3 4],
        outputs := [4, 3, 2] }).2.add_function
    { name := "compute", inputs := [0, 1],
      instructions := [.call ("execute") [0, 1] [2, 3, 4]],
      outputs := [2, 3, 4] }).2

/-- A file path, as consulted by `AVMFile::check_path`: the stem (file name
without extension), the extension, and whether the path is an existing
file. -/
structure PathM where
  stem : Option String
  extension : Option String
  isFile : Bool
  present : Bool
deriving DecidableEq, Repr

/-- `AVMFile::check_path`: the path must be an existing file with the `avm`
extension. -/
def checkPath (p : PathM) : Bool :=
  p.isFile && (p.extension == some ("avm")) && p.present

/-- An `.avm` file artifact: the file name (without extension) and the
program parsed from the file bytes. -/
structure AVMFileM where
  file_name : String
  program : ProgramM
deriving DecidableEq

/-- `AVMFile::from_path` (`src/vm/file/avm.rs` lines 42-60): check the path,
take the file stem as the file name, and parse the file bytes into a
program.  Modelled from the spec: `fs::read` composed with
`Program::from_bytes_le` is abstracted as `contents`, the parse outcome of
the bytes at the path (`none` when reading or parsing fails). -/
def AVMFile.from_path (p : PathM) (contents : Option ProgramM) : Option AVMFileM :=
  if checkPath p then
    match p.stem with
    | none => none
    | some stem =>
      match contents with
      | none => none
      | some prog => some { file_name := stem, program := prog }
  else none

/-- The checked/wrapped binary arithmetic opcode pairs on same-kind
operands, with the exact integer result each pair computes. -/
def checkedWrappedBinary : List (Op × Op × (Int → Int → Int)) :=
  [(.add, .addW, fun a b => a + b),
   (.sub, .subW, fun a b => a - b),
   (.mul, .mulW, fun a b => a * b)]

/-- The checked/wrapped opcode pairs whose second operand is an unsigned
shift amount or exponent, with the exact integer result each pair
computes. -/
def checkedWrappedShift : List (Op × Op × (Int → Nat → Int)) :=
  [(.shl, .shlW, fun a n => a * 2 ^ n),
   (.pow, .powW, fun a n => a ^ n)]

/-- A record type fixture (the `token` record of the repository tests,
with its literal-typed entries). -/
def recOne : RecordDecl :=
  { name := "token",
    entries := [("owner", .privateE (.literal .address)),
                ("balance", .privateE (.literal .u64)),
                ("token_amount", .privateE (.literal .u64))] }

/-- A second record type fixture with a distinct name. -/
def recTwo : RecordDecl :=
  { name := "coin",
    entries := [("owner", .privateE (.literal .address)),
                ("balance", .privateE (.literal .u64))] }

/-- A function with no input statements: `add_function` must reject it. -/
def emptyInputsFn : FunctionDecl :=
  { name := "bad", inputs := [], instructions := [.binary .add 0 1 2], outputs := [2] }

theorem int_emod_eq_self_iff (v m : Int) (hm : 0 < m) :
    v % m = v ↔ 0 ≤ v ∧ v < m := by
  constructor
  · intro h
    have h1 := Int.emod_nonneg v (by omega : m ≠ 0)
    have h2 := Int.emod_lt_of_pos v hm
    omega
  · intro h
    exact Int.emod_eq_of_lt h.1 h.2

theorem IntKind.wrap_eq_self_iff (t : IntKind) (v : Int) :
    t.wrap v = v ↔ t.inRange v = true := by
  have hw : 1 ≤ t.width := by cases t <;> simp [IntKind.width]
  have hsplit : (2 : Int) ^ t.width = 2 ^ (t.width - 1) * 2 := by
    have h1 : t.width = (t.width - 1) + 1 := by omega
    conv_lhs => rw [h1]
    rw [pow_succ]
  have hhpos : (0 : Int) < 2 ^ (t.width - 1) := by positivity
  have hmpos : (0 : Int) < 2 ^ t.width := by positivity
  unfold IntKind.wrap IntKind.inRange IntKind.lo IntKind.hi
  cases hs : t.signed
  · simp only [hs, Bool.false_eq_true, if_false, Bool.and_eq_true, decide_eq_true_eq]
    rw [int_emod_eq_self_iff v _ hmpos]
    omega
  · simp only [hs, if_true, Bool.and_eq_true, decide_eq_true_eq]
    have hb1 := Int.emod_nonneg (v + 2 ^ (t.width - 1)) (by omega : (2 : Int) ^ t.width ≠ 0)
    have hb2 := Int.emod_lt_of_pos (v + 2 ^ (t.width - 1)) hmpos
    constructor
    · intro h
      omega
    · intro h
      have h2 : (v + 2 ^ (t.width - 1)) % 2 ^ t.width = v + 2 ^ (t.width - 1) :=
        Int.emod_eq_of_lt (by omega) (by omega)
      omega

theorem discipline_eq : nativeDiscipline = circuitDiscipline := by
  unfold nativeDiscipline circuitDiscipline
  congr 1
  funext t r
  by_cases h : t.wrap r = r
  · rw [if_pos ((IntKind.wrap_eq_self_iff t r).mp h), if_pos h, h]
  · rw [if_neg (fun hc => h ((IntKind.wrap_eq_self_iff t r).mpr hc)), if_neg h]

theorem execOp_eq_evalOp (op : Op) (ins : List Lit) :
    execOp op (ins.map Lit.inject) = (evalOp op ins).map Lit.inject := by
  unfold execOp evalOp
  rw [← discipline_eq]
  congr 1
  rw [List.map_map]
  exact (List.map_id ins).symm ▸ rfl

/-- C1: for every opcode and every input tuple on which both the native
evaluator `evaluate` and the circuit evaluator `execute` are defined,
ejecting the circuit output to its native representation equals the native
output. -/
theorem native_circuit_agreement (op : Op) (ins : List Lit) (v : Lit) (c : CLit)
    (h1 : evalOp op ins = some v)
    (h2 : execOp op (ins.map Lit.inject) = some c) :
    c.eject = v := by
  rw [execOp_eq_evalOp op ins, h1] at h2
  simp only [Option.map_some', Option.some.injEq] at h2
  rw [← h2]
  rfl

/-- Witness for C1 at the `add` opcode on `3u8` and `5u8`. -/
theorem native_circuit_agreement_witness :
    CLit.eject { val := Lit.integer .u8 8 } = Lit.integer .u8 8 :=
  native_circuit_agreement .add [.integer .u8 3, .integer .u8 5]
    (.integer .u8 8) { val := .integer .u8 8 } (by decide) (by decide)

theorem evalCore_add_int (d : HaltDiscipline) (t u : IntKind) (a b : Int) :
    evalCore d .add [.integer t a, .integer u b] =
      if t = u then (d.intResult t (a + b)).map (Lit.integer t) else none := rfl

theorem evalCore_addW_int (d : HaltDiscipline) (t u : IntKind) (a b : Int) :
    evalCore d .addW [.integer t a, .integer u b] =
      if t = u then some (.integer t (t.wrap (a + b))) else none := rfl

theorem evalCore_sub_int (d : HaltDiscipline) (t u : IntKind) (a b : Int) :
    evalCore d .sub [.integer t a, .integer u b] =
      if t = u then (d.intResult t (a - b)).map (Lit.integer t) else none := rfl

theorem evalCore_subW_int (d : HaltDiscipline) (t u : IntKind) (a b : Int) :
    evalCore d .subW [.integer t a, .integer u b] =
      if t = u then some (.integer t (t.wrap (a - b))) else none := rfl

theorem evalCore_mul_int (d : HaltDiscipline) (t u : IntKind) (a b : Int) :
    evalCore d .mul [.integer t a, .integer u b] =
      if t = u then (d.intResult t (a * b)).map (Lit.integer t) else none := rfl

theorem evalCore_mulW_int (d : HaltDiscipline) (t u : IntKind) (a b : Int) :
    evalCore d .mulW [.integer t a, .integer u b] =
      if t = u then some (.integer t (t.wrap (a * b))) else none := rfl

theorem evalCore_shl_int (d : HaltDiscipline) (t s : IntKind) (a b : Int) :
    evalCore d .shl [.integer t a, .integer s b] =
      (if s.isShiftKind then
        if b.toNat < t.width then (d.intResult t (a * 2 ^ b.toNat)).map (Lit.integer t)
        else none
      else none) := rfl

theorem evalCore_shlW_int (d : HaltDiscipline) (t s : IntKind) (a b : Int) :
    evalCore d .shlW [.integer t a, .integer s b] =
      (if s.isShiftKind then some (.integer t (t.wrap (a * 2 ^ b.toNat))) else none) := rfl

theorem evalCore_pow_int (d : HaltDiscipline) (t s : IntKind) (a b : Int) :
    evalCore d .pow [.integer t a, .integer s b] =
      (if s.isShiftKind then (d.intResult t (a ^ b.toNat)).map (Lit.integer t)
       else none) := rfl

theorem evalCore_powW_int (d : HaltDiscipline) (t s : IntKind) (a b : Int) :
    evalCore d .powW [.integer t a, .integer s b] =
      (if s.isShiftKind then some (.integer t (t.wrap (a ^ b.toNat))) else none) := rfl

theorem evalCore_abs_int (d : HaltDiscipline) (t : IntKind) (a : Int) :
    evalCore d .abs [.integer t a] =
      (if t.signed then (d.intResult t |a|).map (Lit.integer t) else none) := rfl

theorem evalCore_absW_int (d : HaltDiscipline) (t : IntKind) (a : Int) :
    evalCore d .absW [.integer t a] =
      (if t.signed then some (.integer t (t.wrap |a|)) else none) := rfl

/-- C4: for every checked/wrapped arithmetic opcode pair and every input
tuple whose exact result lies outside the operand kind's representable
range, the checked opcode halts while the wrapped (`.w`) opcode succeeds
and returns the result reduced modulo `2 ^ w` (two's-complement wrap);
this covers the same-kind binary pairs (`add`/`sub`/`mul`), the pairs with
an unsigned shift-amount or exponent operand (`shl`/`pow`), and the unary
`abs` pair. -/
theorem checked_halts_wrapped_wraps :
    (∀ e ∈ checkedWrappedBinary, ∀ (t : IntKind) (a b : Int),
      t.inRange (e.2.2 a b) = false →
      evalOp e.1 [.integer t a, .integer t b] = none ∧
      evalOp e.2.1 [.integer t a, .integer t b] =
        some (.integer t (t.wrap (e.2.2 a b)))) ∧
    (∀ e ∈ checkedWrappedShift, ∀ (t s : IntKind) (a b : Int),
      s.isShiftKind = true →
      t.inRange (e.2.2 a b.toNat) = false →
      evalOp e.1 [.integer t a, .integer s b] = none ∧
      evalOp e.2.1 [.integer t a, .integer s b] =
        some (.integer t (t.wrap (e.2.2 a b.toNat)))) ∧
    (∀ (t : IntKind) (a : Int), t.signed = true → t.inRange |a| = false →
      evalOp .abs [.integer t a] = none ∧
      evalOp .absW [.integer t a] = some (.integer t (t.wrap |a|))) := by
  refine ⟨?_, ?_, ?_⟩
  · intro e he t a b hout
    simp only [checkedWrappedBinary, List.mem_cons, List.not_mem_nil, or_false] at he
    rcases he with rfl | rfl | rfl <;>
      simp [evalOp, evalCore_add_int, evalCore_addW_int, evalCore_sub_int,
        evalCore_subW_int, evalCore_mul_int, evalCore_mulW_int, nativeDiscipline, hout]
  · intro e he t s a b hs hout
    simp only [checkedWrappedShift, List.mem_cons, List.not_mem_nil, or_false] at he
    rcases he with rfl | rfl
    · by_cases hb : b.toNat < t.width <;>
        simp [evalOp, evalCore_shl_int, evalCore_shlW_int, nativeDiscipline, hs, hout, hb]
    · simp [evalOp, evalCore_pow_int, evalCore_powW_int, nativeDiscipline, hs, hout]
  · intro t a hsg hout
    simp [evalOp, evalCore_abs_int, evalCore_absW_int, nativeDiscipline, hsg, hout]

/-- Witness for C4: `add` on `200u8` and `100u8` halts while `add.w` on the
same operands returns `44u8`. -/
theorem checked_halts_wrapped_wraps_witness :
    evalOp .add [.integer .u8 200, .integer .u8 100] = none ∧
    evalOp .addW [.integer .u8 200, .integer .u8 100] = some (.integer .u8 44) := by
  have h := checked_halts_wrapped_wraps.1 (.add, .addW, fun a b => a + b)
    (List.Mem.head _) .u8 200 100 (by decide)
  exact ⟨h.1, h.2.trans (by decide)⟩

/-- C6: the `add` opcode's output-type lookup succeeds exactly on the pairs
of its signature table — (Field,Field), (Group,Group), (Scalar,Scalar) and
the ten same-kind integer pairs — and fails on every other pair, such as
(Field,Group). -/
theorem add_output_type_signature :
    (∀ a b : LitType, (addOutputType a b).isSome = true ↔ (a, b) ∈ addSignatures) ∧
    addOutputType .field .group = none := by
  constructor
  · decide
  · rfl

theorem lookup_eq_none_of_contains_false {α β : Type} [DecidableEq α]
    {m : List (α × β)} {k : α} (h : alistContains m k = false) :
    m.lookup k = none := by
  unfold alistContains at h
  cases hl : m.lookup k
  · rfl
  · rw [hl] at h
    simp at h

theorem lookup_cons_eq {α β : Type} [DecidableEq α] (k : α) (v : β) (rest : List (α × β)) :
    ((k, v) :: rest).lookup k = some v := by
  simp [List.lookup]

theorem lookup_cons_ne {α β : Type} [DecidableEq α] {k k1 : α} (v1 : β)
    (rest : List (α × β)) (h : k ≠ k1) :
    ((k1, v1) :: rest).lookup k = rest.lookup k := by
  have hb : (k == k1) = false := beq_eq_false_iff_ne.mpr h
  simp [List.lookup, hb]

theorem alistInsert_fresh {α β : Type} [DecidableEq α] (m : List (α × β)) (k : α) (v : β)
    (h : alistContains m k = false) :
    alistInsert m k v = (m ++ [(k, v)], none) := by
  induction m with
  | nil => rfl
  | cons e rest ih =>
    obtain ⟨k1, v1⟩ := e
    unfold alistContains at h
    by_cases hk : k = k1
    · exfalso
      subst hk
      rw [lookup_cons_eq] at h
      simp at h
    · rw [lookup_cons_ne v1 rest hk] at h
      have h2 := ih h
      unfold alistInsert
      rw [if_neg hk, h2]
      rfl

theorem alistInsert_snd_none {α β : Type} [DecidableEq α] {m : List (α × β)} {k : α} {v : β}
    (h : (alistInsert m k v).2 = none) : alistContains m k = false := by
  induction m with
  | nil => rfl
  | cons e rest ih =>
    obtain ⟨k1, v1⟩ := e
    by_cases hk : k = k1
    · exfalso
      unfold alistInsert at h
      rw [if_pos hk] at h
      exact Option.noConfusion h
    · unfold alistInsert at h
      rw [if_neg hk] at h
      have hb := ih h
      unfold alistContains
      rw [lookup_cons_ne v1 rest hk]
      exact hb

theorem lookup_append_of_some {α β : Type} [DecidableEq α]
    {l₁ : List (α × β)} (l₂ : List (α × β)) {k : α} {v : β}
    (h : l₁.lookup k = some v) : (l₁ ++ l₂).lookup k = some v := by
  induction l₁ with
  | nil => exact Option.noConfusion h
  | cons e rest ih =>
    obtain ⟨k1, v1⟩ := e
    by_cases hk : k = k1
    · subst hk
      rw [lookup_cons_eq] at h
      show ((k, v1) :: (rest ++ l₂)).lookup k = some v
      rw [lookup_cons_eq]
      exact h
    · rw [lookup_cons_ne v1 rest hk] at h
      show ((k1, v1) :: (rest ++ l₂)).lookup k = some v
      rw [lookup_cons_ne v1 (rest ++ l₂) hk]
      exact ih h

theorem lookup_append_of_none {α β : Type} [DecidableEq α]
    {l₁ : List (α × β)} (l₂ : List (α × β)) {k : α}
    (h : l₁.lookup k = none) : (l₁ ++ l₂).lookup k = l₂.lookup k := by
  induction l₁ with
  | nil => rfl
  | cons e rest ih =>
    obtain ⟨k1, v1⟩ := e
    by_cases hk : k = k1
    · subst hk
      rw [lookup_cons_eq] at h
      exact Option.noConfusion h
    · rw [lookup_cons_ne v1 rest hk] at h
      show ((k1, v1) :: (rest ++ l₂)).lookup k = l₂.lookup k
      rw [lookup_cons_ne v1 (rest ++ l₂) hk]
      exact ih h

theorem readIdent_write (name rest : List Nat) :
    readIdent (writeIdent name ++ rest) = some (name, rest) := by
  unfold writeIdent readIdent
  simp only [List.cons_append]
  rw [if_pos (by simp)]
  rw [List.take_left, List.drop_left]

/-- C9: the `ProgramID` binary form is the name followed by one variant
byte — 0 with no network suffix, 1 then the network id with one — decoding
inverts encoding exactly, and decoding fails on any variant byte other
than 0 or 1. -/
theorem program_id_bytes_roundtrip :
    (∀ (x : ProgramIDM) (rest : List Nat),
      (∀ n, x.network = some n → n < 65536) →
      ProgramIDM.read_le (x.write_le ++ rest) = some (x, rest)) ∧
    (∀ (name : List Nat) (v : Nat) (rest : List Nat), 2 ≤ v →
      ProgramIDM.read_le (writeIdent name ++ v :: rest) = none) := by
  constructor
  · intro x rest hnet
    obtain ⟨name, network⟩ := x
    cases network with
    | none =>
      unfold ProgramIDM.write_le ProgramIDM.read_le
      simp only [List.append_assoc, List.cons_append, List.nil_append]
      rw [readIdent_write]
    | some n =>
      have hn : n < 65536 := hnet n rfl
      unfold ProgramIDM.write_le ProgramIDM.read_le
      simp only [List.append_assoc, List.cons_append]
      rw [readIdent_write]
      unfold writeU16 readU16
      simp only [List.cons_append, List.nil_append]
      have : n % 256 + 256 * (n / 256 % 256) = n := by omega
      rw [this]
  · intro name v rest hv
    obtain ⟨w, rfl⟩ : ∃ w, v = w + 2 := ⟨v - 2, by omega⟩
    unfold ProgramIDM.read_le
    rw [readIdent_write]
    rfl

/-- Witness for C9 at a one-byte name with network id 3, trailing bytes
`[9]`, and at the invalid variant byte 2. -/
theorem program_id_bytes_roundtrip_witness :
    ProgramIDM.read_le (ProgramIDM.write_le { name := [97], network := some 3 } ++ [9]) =
      some ({ name := [97], network := some 3 }, [9]) ∧
    ProgramIDM.read_le (writeIdent [97] ++ 2 :: []) = none := by
  constructor
  · exact program_id_bytes_roundtrip.1 { name := [97], network := some 3 } [9]
      (fun n h => by cases h; omega)
  · exact program_id_bytes_roundtrip.2 [97] 2 [] (by omega)

/-- C8 counterexample: `AVMFile::from_path` accepts a path whose file stem
differs from the loaded program's declared name — the stem is recorded but
never compared with the program id. -/
theorem avm_from_path_no_name_check :
    AVMFile.from_path
        { stem := some ("foo"), extension := some ("avm"), isFile := true, present := true }
        (some (ProgramM.new ("token"))) =
      some { file_name := "foo", program := ProgramM.new ("token") } ∧
    ("foo" : String) ≠ (ProgramM.new ("token")).id := by
  constructor
  · rfl
  · decide

/-- C8 amended: loading succeeds exactly when the path is an existing file
with the `avm` extension, it has a stem, and the bytes re-parse into a
program; the stem becomes the file name but is not required to equal the
program's declared name. -/
theorem avm_from_path_characterization (p : PathM) (c : Option ProgramM) (f : AVMFileM) :
    AVMFile.from_path p c = some f ↔
      (checkPath p = true ∧ p.stem = some f.file_name ∧ c = some f.program) := by
  obtain ⟨fn, fp⟩ := f
  unfold AVMFile.from_path
  by_cases h : checkPath p
  · simp only [h, if_true, true_and]
    cases hs : p.stem
    · simp
    · cases hc : c
      · simp
      · simp [AVMFileM.mk.injEq, and_comm, eq_comm]
  · simp [h]

/-- C2 counterexample: on inputs `3field` and `5field` the caller's output
registers of `call execute r0 r1 into r2 r3 r4` hold `r2 = 19field,
r3 = 11field, r4 = 8field` — not `r2 = 8field, r3 = 11field, r4 = 19field`
as claimed — because the closure declares its outputs in the order
`r4, r3, r2`. -/
theorem example_call_outputs_reversed :
    exampleCallProgram.evaluate ("compute") [.field 3, .field 5] =
      some [.field 19, .field 11, .field 8] ∧
    exampleCallProgram.evaluate ("compute") [.field 3, .field 5] ≠
      some [.field 8, .field 11, .field 19] := by
  constructor
  · decide
  · decide

/-- C2 amended: evaluating the calling function on `3field` and `5field`
yields the caller's output registers `r2 = 19field, r3 = 11field,
r4 = 8field`, in that order (the closure declares its outputs as
`r4, r3, r2`). -/
theorem example_call_outputs :
    exampleCallProgram.evaluate ("compute") [.field 3, .field 5] =
      some [.field 19, .field 11, .field 8] := by
  decide

/-- C7: evaluating `compute` on `2field` and `3field` returns exactly one
output, `5field`, and re-running the evaluation on the stack returned by
the first call yields `5field` again. -/
theorem example_function_evaluation :
    ((StackM.test_evaluate { program := exampleProgram } ("compute")
        [.field 2, .field 3]).1 = some [.field 5]) ∧
    ((StackM.test_evaluate
        (StackM.test_evaluate { program := exampleProgram } ("compute")
          [.field 2, .field 3]).2
        ("compute") [.field 2, .field 3]).1 = some [.field 5]) := by
  constructor
  · decide
  · decide

/-- C3: evaluating the code at the failing input — `add_record` on a
program that already holds one record type succeeds (the guard
`records.len() <= 1` is tested before the insertion), leaving two record
types in the program, against the stated one-record policy. -/
theorem add_record_second_accepted :
    ((((ProgramM.new "test").add_record recOne).2.add_record recTwo).1 = none) ∧
    ((((ProgramM.new "test").add_record recOne).2.add_record recTwo).2.records.length = 2) := by
  constructor
  · decide
  · decide

theorem add_interface_ok (p : ProgramM) (i : InterfaceDecl) (p' : ProgramM)
    (h : p.add_interface i = (none, p')) :
    alistContains p.identifiers i.name = false ∧
    alistContains p.interfaces i.name = false ∧
    p' = { p with identifiers := p.identifiers ++ [(i.name, .interface)],
                  interfaces := p.interfaces ++ [(i.name, i)] } := by
  unfold ProgramM.add_interface at h
  cases g1 : p.is_unique_name i.name
  · simp [g1] at h
  · cases g2 : is_reserved_opcode i.name
    · cases g3 : is_reserved_keyword i.name
      · cases g4 : i.members.isEmpty
        · cases g5 : i.members.all p.memberOk
          · simp [g1, g2, g3, g4, g5] at h
          · have hidc : alistContains p.identifiers i.name = false := by
              simpa [ProgramM.is_unique_name] using g1
            simp only [g1, g2, g3, g4, g5] at h
            rw [alistInsert_fresh _ _ _ hidc] at h
            simp only [Bool.not_true, Bool.not_false, Bool.false_eq_true, Bool.true_eq_false,
              if_false, if_true, Option.isSome_none, Option.isSome_some] at h
            cases g6 : (alistInsert p.interfaces i.name i).2
            · have hic : alistContains p.interfaces i.name = false := alistInsert_snd_none g6
              rw [alistInsert_fresh _ _ _ hic] at h
              simp only [Option.isSome_none, Bool.false_eq_true, if_false,
                Prod.mk.injEq, true_and] at h
              exact ⟨hidc, hic, h.symm⟩
            · rw [g6] at h
              simp at h
        · simp [g1, g2, g3, g4] at h
      · simp [g1, g2, g3] at h
    · simp [g1, g2] at h

theorem add_record_ok (p : ProgramM) (rec : RecordDecl) (p' : ProgramM)
    (h : p.add_record rec = (none, p')) :
    alistContains p.identifiers rec.name = false ∧
    alistContains p.records rec.name = false ∧
    p' = { p with identifiers := p.identifiers ++ [(rec.name, .record)],
                  records := p.records ++ [(rec.name, rec)] } := by
  unfold ProgramM.add_record at h
  by_cases g0 : p.records.length ≤ 1
  · cases g1 : p.is_unique_name rec.name
    · simp [g0, g1] at h
    · cases g2 : is_reserved_opcode rec.name
      · cases g3 : is_reserved_keyword rec.name
        · cases g5 : rec.entries.all p.entryOk
          · simp [g0, g1, g2, g3, g5] at h
          · have hidc : alistContains p.identifiers rec.name = false := by
              simpa [ProgramM.is_unique_name] using g1
            simp only [g0, g1, g2, g3, g5] at h
            rw [alistInsert_fresh _ _ _ hidc] at h
            simp only [Bool.not_true, Bool.not_false, Bool.false_eq_true, Bool.true_eq_false,
              decide_True, if_false, if_true, Option.isSome_none,
              Option.isSome_some] at h
            cases g6 : (alistInsert p.records rec.name rec).2
            · have hic : alistContains p.records rec.name = false := alistInsert_snd_none g6
              rw [alistInsert_fresh _ _ _ hic] at h
              simp only [Option.isSome_none, Bool.false_eq_true, if_false,
                Prod.mk.injEq, true_and] at h
              exact ⟨hidc, hic, h.symm⟩
            · rw [g6] at h
              simp at h
        · simp [g0, g1, g2, g3] at h
      · simp [g0, g1, g2] at h
  · simp [g0] at h

theorem add_closure_ok (p : ProgramM) (c : ClosureDecl) (p' : ProgramM)
    (h : p.add_closure c = (none, p')) :
    alistContains p.identifiers c.name = false ∧
    alistContains p.closures c.name = false ∧
    p' = { p with identifiers := p.identifiers ++ [(c.name, .closure)],
                  closures := p.closures ++ [(c.name, c)] } := by
  unfold ProgramM.add_closure at h
  cases g1 : p.is_unique_name c.name
  · simp [g1] at h
  · cases g2 : is_reserved_opcode c.name
    · cases g3 : is_reserved_keyword c.name
      · cases g4 : c.inputs.isEmpty
        · by_cases g5 : c.inputs.length ≤ MAX_INPUTS
          · cases g6 : c.instructions.isEmpty
            · by_cases g7 : c.outputs.length ≤ MAX_OUTPUTS
              · have hidc : alistContains p.identifiers c.name = false := by
                  simpa [ProgramM.is_unique_name] using g1
                simp only [g1, g2, g3, g4, g5, g6, g7] at h
                rw [alistInsert_fresh _ _ _ hidc] at h
                simp only [Bool.not_true, Bool.not_false, Bool.false_eq_true,
                  Bool.true_eq_false, decide_True, if_false, if_true,
                  Option.isSome_none, Option.isSome_some] at h
                cases g8 : (alistInsert p.closures c.name c).2
                · have hic : alistContains p.closures c.name = false := alistInsert_snd_none g8
                  rw [alistInsert_fresh _ _ _ hic] at h
                  simp only [Option.isSome_none, Bool.false_eq_true, if_false,
                    Prod.mk.injEq, true_and] at h
                  exact ⟨hidc, hic, h.symm⟩
                · rw [g8] at h
                  simp at h
              · simp [g1, g2, g3, g4, g5, g6, g7] at h
            · simp [g1, g2, g3, g4, g5, g6] at h
          · simp [g1, g2, g3, g4, g5] at h
        · simp [g1, g2, g3, g4] at h
      · simp [g1, g2, g3] at h
    · simp [g1, g2] at h

theorem add_function_ok (p : ProgramM) (f : FunctionDecl) (p' : ProgramM)
    (h : p.add_function f = (none, p')) :
    alistContains p.identifiers f.name = false ∧
    alistContains p.functions f.name = false ∧
    p' = { p with identifiers := p.identifiers ++ [(f.name, .function)],
                  functions := p.functions ++ [(f.name, f)] } := by
  unfold ProgramM.add_function at h
  cases g1 : p.is_unique_name f.name
  · simp [g1] at h
  · cases g2 : is_reserved_opcode f.name
    · cases g3 : is_reserved_keyword f.name
      · cases g4 : f.inputs.isEmpty
        · by_cases g5 : f.inputs.length ≤ MAX_INPUTS
          · cases g6 : f.instructions.isEmpty
            · by_cases g7 : f.outputs.length ≤ MAX_OUTPUTS
              · have hidc : alistContains p.identifiers f.name = false := by
                  simpa [ProgramM.is_unique_name] using g1
                simp only [g1, g2, g3, g4, g5, g6, g7] at h
                rw [alistInsert_fresh _ _ _ hidc] at h
                simp only [Bool.not_true, Bool.not_false, Bool.false_eq_true,
                  Bool.true_eq_false, decide_True, if_false, if_true,
                  Option.isSome_none, Option.isSome_some] at h
                cases g8 : (alistInsert p.functions f.name f).2
                · have hic : alistContains p.functions f.name = false := alistInsert_snd_none g8
                  rw [alistInsert_fresh _ _ _ hic] at h
                  simp only [Option.isSome_none, Bool.false_eq_true, if_false,
                    Prod.mk.injEq, true_and] at h
                  exact ⟨hidc, hic, h.symm⟩
                · rw [g8] at h
                  simp at h
              · simp [g1, g2, g3, g4, g5, g6, g7] at h
            · simp [g1, g2, g3, g4, g5, g6] at h
          · simp [g1, g2, g3, g4, g5] at h
        · simp [g1, g2, g3, g4] at h
      · simp [g1, g2, g3] at h
    · simp [g1, g2] at h

theorem add_import_ok (p : ProgramM) (imp : ImportDecl) (p' : ProgramM)
    (h : p.add_import imp = (none, p')) :
    p'.identifiers = p.identifiers ∧ p'.interfaces = p.interfaces ∧
    p'.records = p.records ∧ p'.closures = p.closures ∧ p'.functions = p.functions := by
  unfold ProgramM.add_import at h
  cases g1 : p.is_unique_name imp.name
  · simp [g1] at h
  · cases g2 : is_reserved_opcode imp.name
    · cases g3 : is_reserved_keyword imp.name
      · cases g4 : alistContains p.imports imp.id
        · simp only [g1, g2, g3, g4] at h
          simp only [Bool.not_true, Bool.not_false, Bool.false_eq_true, Bool.true_eq_false,
            if_false, if_true] at h
          cases g5 : (alistInsert p.imports imp.id imp).2
          · rw [g5] at h
            simp only [Option.isSome_none, Bool.false_eq_true, if_false,
              Prod.mk.injEq, true_and] at h
            rw [← h]
            exact ⟨rfl, rfl, rfl, rfl, rfl⟩
          · rw [g5] at h
            simp at h
        · simp [g1, g2, g3, g4] at h
      · simp [g1, g2, g3] at h
    · simp [g1, g2] at h

theorem lookup_append_singleton_ne {α β : Type} [DecidableEq α] (m : List (α × β))
    {k n : α} (v : β) (hk : k ≠ n) :
    (m ++ [(n, v)]).lookup k = m.lookup k := by
  cases hm : m.lookup k
  · rw [lookup_append_of_none _ hm, lookup_cons_ne v [] hk]
    rfl
  · exact lookup_append_of_some _ hm

theorem lookup_none_of_iff {γ : Type} {ids : List (String × ProgramDefinition)}
    {m : List (String × γ)} {n : String} {kd : ProgramDefinition}
    (hiff : ids.lookup n = some kd ↔ (m.lookup n).isSome = true)
    (hn : ids.lookup n = none) : m.lookup n = none := by
  cases hm : m.lookup n
  · rfl
  · exfalso
    have h2 : ids.lookup n = some kd := hiff.mpr (by rw [hm]; rfl)
    rw [hn] at h2
    exact Option.noConfusion h2

theorem mapsConsistent_extend_interface
    {ids : List (String × ProgramDefinition)} {ints : List (String × InterfaceDecl)}
    {recs : List (String × RecordDecl)} {clos : List (String × ClosureDecl)}
    {funs : List (String × FunctionDecl)} (n : String) (i : InterfaceDecl)
    (hc : mapsConsistent ids ints recs clos funs)
    (hn : ids.lookup n = none) :
    mapsConsistent (ids ++ [(n, .interface)]) (ints ++ [(n, i)]) recs clos funs := by
  intro k
  by_cases hk : k = n
  · subst hk
    have hi : ints.lookup k = none := lookup_none_of_iff (hc k).1 hn
    have hr : recs.lookup k = none := lookup_none_of_iff (hc k).2.1 hn
    have hcl : clos.lookup k = none := lookup_none_of_iff (hc k).2.2.1 hn
    have hf : funs.lookup k = none := lookup_none_of_iff (hc k).2.2.2 hn
    rw [lookup_append_of_none _ hn, lookup_cons_eq, lookup_append_of_none _ hi,
      lookup_cons_eq]
    refine ⟨by simp, ?_, ?_, ?_⟩
    · rw [hr]; simp
    · rw [hcl]; simp
    · rw [hf]; simp
  · rw [lookup_append_singleton_ne _ _ hk, lookup_append_singleton_ne _ _ hk]
    exact hc k

theorem mapsConsistent_extend_record
    {ids : List (String × ProgramDefinition)} {ints : List (String × InterfaceDecl)}
    {recs : List (String × RecordDecl)} {clos : List (String × ClosureDecl)}
    {funs : List (String × FunctionDecl)} (n : String) (rec : RecordDecl)
    (hc : mapsConsistent ids ints recs clos funs)
    (hn : ids.lookup n = none) :
    mapsConsistent (ids ++ [(n, .record)]) ints (recs ++ [(n, rec)]) clos funs := by
  intro k
  by_cases hk : k = n
  · subst hk
    have hi : ints.lookup k = none := lookup_none_of_iff (hc k).1 hn
    have hr : recs.lookup k = none := lookup_none_of_iff (hc k).2.1 hn
    have hcl : clos.lookup k = none := lookup_none_of_iff (hc k).2.2.1 hn
    have hf : funs.lookup k = none := lookup_none_of_iff (hc k).2.2.2 hn
    rw [lookup_append_of_none _ hn, lookup_cons_eq, lookup_append_of_none _ hr,
      lookup_cons_eq]
    refine ⟨?_, by simp, ?_, ?_⟩
    · rw [hi]; simp
    · rw [hcl]; simp
    · rw [hf]; simp
  · rw [lookup_append_singleton_ne _ _ hk, lookup_append_singleton_ne _ _ hk]
    exact hc k

theorem mapsConsistent_extend_closure
    {ids : List (String × ProgramDefinition)} {ints : List (String × InterfaceDecl)}
    {recs : List (String × RecordDecl)} {clos : List (String × ClosureDecl)}
    {funs : List (String × FunctionDecl)} (n : String) (c : ClosureDecl)
    (hc : mapsConsistent ids ints recs clos funs)
    (hn : ids.lookup n = none) :
    mapsConsistent (ids ++ [(n, .closure)]) ints recs (clos ++ [(n, c)]) funs := by
  intro k
  by_cases hk : k = n
  · subst hk
    have hi : ints.lookup k = none := lookup_none_of_iff (hc k).1 hn
    have hr : recs.lookup k = none := lookup_none_of_iff (hc k).2.1 hn
    have hcl : clos.lookup k = none := lookup_none_of_iff (hc k).2.2.1 hn
    have hf : funs.lookup k = none := lookup_none_of_iff (hc k).2.2.2 hn
    rw [lookup_append_of_none _ hn, lookup_cons_eq, lookup_append_of_none _ hcl,
      lookup_cons_eq]
    refine ⟨?_, ?_, by simp, ?_⟩
    · rw [hi]; simp
    · rw [hr]; simp
    · rw [hf]; simp
  · rw [lookup_append_singleton_ne _ _ hk, lookup_append_singleton_ne _ _ hk]
    exact hc k

theorem mapsConsistent_extend_function
    {ids : List (String × ProgramDefinition)} {ints : List (String × InterfaceDecl)}
    {recs : List (String × RecordDecl)} {clos : List (String × ClosureDecl)}
    {funs : List (String × FunctionDecl)} (n : String) (f : FunctionDecl)
    (hc : mapsConsistent ids ints recs clos funs)
    (hn : ids.lookup n = none) :
    mapsConsistent (ids ++ [(n, .function)]) ints recs clos (funs ++ [(n, f)]) := by
  intro k
  by_cases hk : k = n
  · subst hk
    have hi : ints.lookup k = none := lookup_none_of_iff (hc k).1 hn
    have hr : recs.lookup k = none := lookup_none_of_iff (hc k).2.1 hn
    have hcl : clos.lookup k = none := lookup_none_of_iff (hc k).2.2.1 hn
    have hf : funs.lookup k = none := lookup_none_of_iff (hc k).2.2.2 hn
    rw [lookup_append_of_none _ hn, lookup_cons_eq, lookup_append_of_none _ hf,
      lookup_cons_eq]
    refine ⟨?_, ?_, ?_, by simp⟩
    · rw [hi]; simp
    · rw [hr]; simp
    · rw [hcl]; simp
  · rw [lookup_append_singleton_ne _ _ hk, lookup_append_singleton_ne _ _ hk]
    exact hc k

theorem namespaceConsistent_of_reachable (p : ProgramM) (h : p.Reachable) :
    p.namespaceConsistent := by
  induction h with
  | new id =>
    intro k
    refine ⟨?_, ?_, ?_, ?_⟩ <;> simp [ProgramM.new, List.lookup]
  | @addImport p imp p' hr heq ih =>
    have he := add_import_ok p imp p' heq
    unfold ProgramM.namespaceConsistent at ih ⊢
    rw [he.1, he.2.1, he.2.2.1, he.2.2.2.1, he.2.2.2.2]
    exact ih
  | @addInterface p i p' hr heq ih =>
    obtain ⟨hid, hint, rfl⟩ := add_interface_ok p i p' heq
    exact mapsConsistent_extend_interface i.name i ih
      (lookup_eq_none_of_contains_false hid)
  | @addRecord p rec p' hr heq ih =>
    obtain ⟨hid, hrec, rfl⟩ := add_record_ok p rec p' heq
    exact mapsConsistent_extend_record rec.name rec ih
      (lookup_eq_none_of_contains_false hid)
  | @addClosure p c p' hr heq ih =>
    obtain ⟨hid, hclo, rfl⟩ := add_closure_ok p c p' heq
    exact mapsConsistent_extend_closure c.name c ih
      (lookup_eq_none_of_contains_false hid)
  | @addFunction p f p' hr heq ih =>
    obtain ⟨hid, hfun, rfl⟩ := add_function_ok p f p' heq
    exact mapsConsistent_extend_function f.name f ih
      (lookup_eq_none_of_contains_false hid)

/-- C10: every program reachable from `Program::new` by successful
add-operations keeps its identifier namespace consistent with the four
declaration maps: a name is registered under a kind exactly when it names a
declaration in the map of that kind, so it lives in exactly one map and the
stored `ProgramDefinition` names that map. -/
theorem reachable_namespace_consistent (p : ProgramM) (h : p.Reachable) :
    p.namespaceConsistent :=
  namespaceConsistent_of_reachable p h

/-- Witness for C10 at the empty program. -/
theorem reachable_namespace_consistent_witness :
    (ProgramM.new "example").namespaceConsistent :=
  reachable_namespace_consistent _ (ProgramM.Reachable.new "example")

/-- C5: on every reachable program state, an `add_function` call that fails
any rule leaves the program — its identifiers, interfaces, records,
closures, and functions maps — exactly as it was before the call. -/
theorem add_function_atomic (p : ProgramM) (f : FunctionDecl) (hp : p.Reachable)
    (h : (p.add_function f).1.isSome = true) :
    (p.add_function f).2 = p := by
  have hc := namespaceConsistent_of_reachable p hp
  unfold ProgramM.add_function
  cases g1 : p.is_unique_name f.name
  · simp [g1]
  · cases g2 : is_reserved_opcode f.name
    · cases g3 : is_reserved_keyword f.name
      · cases g4 : f.inputs.isEmpty
        · by_cases g5 : f.inputs.length ≤ MAX_INPUTS
          · cases g6 : f.instructions.isEmpty
            · by_cases g7 : f.outputs.length ≤ MAX_OUTPUTS
              · exfalso
                have hidc : alistContains p.identifiers f.name = false := by
                  simpa [ProgramM.is_unique_name] using g1
                have hfn : p.functions.lookup f.name = none :=
                  lookup_none_of_iff (hc f.name).2.2.2
                    (lookup_eq_none_of_contains_false hidc)
                have hfc : alistContains p.functions f.name = false := by
                  unfold alistContains
                  rw [hfn]
                  rfl
                unfold ProgramM.add_function at h
                simp [g1, g2, g3, g4, g5, g6, g7, alistInsert_fresh _ _ _ hidc,
                  alistInsert_fresh _ _ _ hfc] at h
              · simp [g1, g2, g3, g4, g5, g6, g7]
            · simp [g1, g2, g3, g4, g5, g6]
          · simp [g1, g2, g3, g4, g5]
        · simp [g1, g2, g3, g4]
      · simp [g1, g2, g3]
    · simp [g1, g2]

/-- Witness for C5: adding a function with no input statements to a fresh
program fails and leaves the program unchanged. -/
theorem add_function_atomic_witness :
    ((ProgramM.new "scope").add_function emptyInputsFn).1.isSome = true ∧
    ((ProgramM.new "scope").add_function emptyInputsFn).2 = ProgramM.new "scope" :=
  ⟨by decide, add_function_atomic _ _ (ProgramM.Reachable.new "scope") (by decide)⟩

end Snark
